import Mathlib

/-!
Shallow embedding of the `rim` terminal text editor (`src/main.rs`).

The editor state (`Editor`) mirrors the Rust `Editor` struct: a line buffer
(`Vec<String>`, modelled as `List (List Char)` with byte lengths computed via
`Char.utf8Size`, matching Rust's `String::len`), a `(row, column)` cursor whose
column is a byte offset, a mode, the status message, and the scroll offset.

Rust `String::insert`, `String::remove`, slicing and `truncate` panic when the
byte index is not a character boundary; the corresponding line operations here
return `Option`, with `none` standing for a panic.  Operations that cannot
panic are plain functions.  File I/O is modelled by its data content: `save`
produces the written byte content, `Editor::new` consumes a flag for file
existence plus the file's content.
-/

namespace Rim

/-- The three editor modes (`enum Mode` in the source). -/
inductive Mode
  | normal
  | insert
  | command
deriving DecidableEq

/-- A text line: the characters of a Rust `String`. -/
abbrev Line := List Char

/-- `String::len` in Rust: the UTF-8 byte length of a line. -/
def byteLen (l : Line) : Nat := (l.map Char.utf8Size).sum

/-- The `Editor` struct from the source. -/
structure Editor where
  lines : List Line
  cursor : Nat × Nat
  mode : Mode
  filePath : String
  statusMessage : List Char
  scrollOffset : Nat
deriving DecidableEq

/-- Rust `String::insert(idx, c)`: inserts `c` at byte offset `idx`;
panics (`none`) unless `idx` is a char boundary with `idx ≤ len`. -/
def insertAt : Line → Nat → Char → Option Line
  | l, 0, c => some (c :: l)
  | [], _ + 1, _ => none
  | d :: ds, n + 1, c =>
    if d.utf8Size ≤ n + 1 then (insertAt ds (n + 1 - d.utf8Size) c).map (d :: ·)
    else none

/-- Rust `String::remove(idx)`: removes the character starting at byte offset
`idx`; panics (`none`) unless `idx` is a char boundary with `idx < len`. -/
def removeAt : Line → Nat → Option Line
  | [], _ => none
  | _ :: ds, 0 => some ds
  | d :: ds, n + 1 =>
    if d.utf8Size ≤ n + 1 then (removeAt ds (n + 1 - d.utf8Size)).map (d :: ·)
    else none

/-- Rust string slicing/truncation at byte offset `idx`: splits the line into
`line[..idx]` and `line[idx..]`; panics (`none`) unless `idx` is a char
boundary with `idx ≤ len`. -/
def splitAtByte : Line → Nat → Option (Line × Line)
  | l, 0 => some ([], l)
  | [], _ + 1 => none
  | d :: ds, n + 1 =>
    if d.utf8Size ≤ n + 1 then
      (splitAtByte ds (n + 1 - d.utf8Size)).map (fun p => (d :: p.1, p.2))
    else none

/-- `Vec::insert(idx, x)`; call sites always have `idx ≤ length`
(`Vec::insert` panics otherwise). -/
def listInsertAt : List Line → Nat → Line → List Line
  | xs, 0, x => x :: xs
  | [], _ + 1, _ => []
  | y :: ys, n + 1, x => y :: listInsertAt ys n x

/-- `fn move_cursor_up`. -/
def moveCursorUp (e : Editor) : Editor :=
  if e.cursor.fst > 0 then
    { e with
      cursor := (e.cursor.fst - 1,
        min e.cursor.snd (byteLen (e.lines.getD (e.cursor.fst - 1) []))),
      scrollOffset :=
        if e.cursor.fst - 1 < e.scrollOffset then e.cursor.fst - 1
        else e.scrollOffset }
  else e

/-- `fn move_cursor_down`; `height` is the terminal height returned by
`terminal_size()`.  `self.scroll_offset + height as usize - 3` associates as
`(scroll_offset + height) - 3`, and `saturating_sub` is truncated `Nat`
subtraction. -/
def moveCursorDown (height : Nat) (e : Editor) : Editor :=
  if e.cursor.fst < e.lines.length - 1 then
    { e with
      cursor := (e.cursor.fst + 1,
        min e.cursor.snd (byteLen (e.lines.getD (e.cursor.fst + 1) []))),
      scrollOffset :=
        if e.cursor.fst + 1 ≥ e.scrollOffset + height - 3
        then e.cursor.fst + 1 - (height - 3)
        else e.scrollOffset }
  else e

/-- `fn move_cursor_left`. -/
def moveCursorLeft (e : Editor) : Editor :=
  if e.cursor.snd > 0 then
    { e with cursor := (e.cursor.fst, e.cursor.snd - 1) }
  else if e.cursor.fst > 0 then
    { e with
      cursor := (e.cursor.fst - 1, byteLen (e.lines.getD (e.cursor.fst - 1) [])) }
  else e

/-- `fn move_cursor_right`. -/
def moveCursorRight (e : Editor) : Editor :=
  if e.cursor.snd < byteLen (e.lines.getD e.cursor.fst []) then
    { e with cursor := (e.cursor.fst, e.cursor.snd + 1) }
  else if e.cursor.fst < e.lines.length - 1 then
    { e with cursor := (e.cursor.fst + 1, 0) }
  else e

/-- `fn insert_char`: `self.lines[self.cursor.0]` panics when the row is out of
range, and `String::insert` panics off a char boundary (`none`). -/
def insertChar (e : Editor) (c : Char) : Option Editor :=
  if e.cursor.fst < e.lines.length then
    match insertAt (e.lines.getD e.cursor.fst []) e.cursor.snd c with
    | some l =>
      some { e with
        lines := e.lines.set e.cursor.fst l,
        cursor := (e.cursor.fst, e.cursor.snd + 1) }
    | none => none
  else none

/-- `fn insert_newline`: slices `line[cursor.1..]`, truncates the current line
to `cursor.1`, inserts the remainder as a new line below, and moves the cursor
to the start of the new line.  Slicing/truncating off a char boundary panics
(`none`). -/
def insertNewline (e : Editor) : Option Editor :=
  if e.cursor.fst < e.lines.length then
    match splitAtByte (e.lines.getD e.cursor.fst []) e.cursor.snd with
    | some (l1, l2) =>
      some { e with
        lines := listInsertAt (e.lines.set e.cursor.fst l1) (e.cursor.fst + 1) l2,
        cursor := (e.cursor.fst + 1, 0) }
    | none => none
  else none

/-- `fn delete_char`: with `cursor.1 > 0`, removes the character at byte offset
`cursor.1 - 1` (a panic off a char boundary is `none`); with `cursor.1 == 0`
and `cursor.0 > 0`, removes the current line and appends it to the previous
line, placing the cursor at the old end of the previous line; otherwise a
no-op. -/
def deleteChar (e : Editor) : Option Editor :=
  if e.cursor.snd > 0 then
    if e.cursor.fst < e.lines.length then
      match removeAt (e.lines.getD e.cursor.fst []) (e.cursor.snd - 1) with
      | some l =>
        some { e with
          lines := e.lines.set e.cursor.fst l,
          cursor := (e.cursor.fst, e.cursor.snd - 1) }
      | none => none
    else none
  else if e.cursor.fst > 0 then
    if e.cursor.fst < e.lines.length then
      some { e with
        lines :=
          (e.lines.eraseIdx e.cursor.fst).set (e.cursor.fst - 1)
            (((e.lines.eraseIdx e.cursor.fst).getD (e.cursor.fst - 1) []) ++
              e.lines.getD e.cursor.fst []),
        cursor := (e.cursor.fst - 1,
          byteLen ((e.lines.eraseIdx e.cursor.fst).getD (e.cursor.fst - 1) [])) }
    else none
  else some e

/-- `fn save` as it acts on the editor state: sets the status message to
`"File saved"` (the file write itself is modelled by `saveContent`). -/
def save (e : Editor) : Editor :=
  { e with statusMessage := "File saved".toList }

/-- The byte content `fn save` writes: every line followed by a newline
(`writeln!` per line, including the last). -/
def saveContent (lines : List Line) : List Char :=
  (lines.map (fun l => l ++ ['\n'])).flatten

/-- `fn execute_command`: matches the accumulated status message against
`"w"`, `"q"`, `"wq"`; the boolean result is the `Ok(true)`/`Ok(false)` quit
signal.  For `"q"`/`"wq"` the function returns early; otherwise it falls
through to `self.mode = Mode::Normal; self.status_message.clear()`. -/
def executeCommand (e : Editor) : Editor × Bool :=
  if e.statusMessage = "w".toList then
    ({ save e with mode := Mode.normal, statusMessage := [] }, false)
  else if e.statusMessage = "q".toList then
    (e, true)
  else if e.statusMessage = "wq".toList then
    (save e, true)
  else
    ({ { e with statusMessage := "Invalid command".toList } with
        mode := Mode.normal, statusMessage := [] }, false)

/-- Strips one trailing carriage return (`BufRead::lines` CRLF handling). -/
def stripCR (l : Line) : Line :=
  if l.getLast? = some '\r' then l.dropLast else l

/-- Splits a character list at every newline; a list with no newline yields a
single segment, and each newline separates two segments. -/
def splitOnNL : List Char → List Line
  | [] => [[]]
  | c :: cs =>
    if c = '\n' then [] :: splitOnNL cs
    else
      match splitOnNL cs with
      | [] => [[c]]
      | l :: ls => (c :: l) :: ls

/-- Rust `BufRead::lines` collected into a vector: one record per
newline-terminated line (terminator dropped, a CR before the terminator also
dropped), a final unterminated fragment kept verbatim, and an empty input
yielding no lines at all. -/
def rustLines (s : List Char) : List Line :=
  if s = [] then []
  else if s.getLast? = some '\n' then
    ((splitOnNL s).dropLast).map stripCR
  else
    ((splitOnNL s).dropLast).map stripCR ++ [(splitOnNL s).getLastD []]

/-- `Editor::new`: the buffer is the file's lines when the file exists, and a
single empty line otherwise. -/
def editorNew (fileExists : Bool) (content : List Char) (path : String) : Editor :=
  { lines := if fileExists then rustLines content else [[]]
    cursor := (0, 0)
    mode := Mode.normal
    filePath := path
    statusMessage := []
    scrollOffset := 0 }

/-- The cursor validity invariant from the spec's data model: the row indexes a
buffer line and the column is at most that line's byte length. -/
def validState (e : Editor) : Prop :=
  e.cursor.fst < e.lines.length ∧
    e.cursor.snd ≤ byteLen (e.lines.getD e.cursor.fst [])

instance (e : Editor) : Decidable (validState e) :=
  inferInstanceAs (Decidable (_ < _ ∧ _ ≤ _))

/-- `visible_lines` in `fn display`: the number of buffer rows rendered per
frame, `(height - 2) as usize`. -/
def visibleRowCount (height : Nat) : Nat := height - 2

/-- The viewport invariant from the spec: the cursor row lies inside
`[scroll_offset, scroll_offset + visible_row_count - 1]`. -/
def viewportInv (height : Nat) (e : Editor) : Prop :=
  e.scrollOffset ≤ e.cursor.fst ∧
    e.cursor.fst < e.scrollOffset + visibleRowCount height

instance (height : Nat) (e : Editor) : Decidable (viewportInv height e) :=
  inferInstanceAs (Decidable (_ ≤ _ ∧ _ < _))

/-- All characters of a line are single-byte (ASCII range). -/
def asciiLine (l : Line) : Prop := ∀ c ∈ l, c.utf8Size = 1

instance (l : Line) : Decidable (asciiLine l) :=
  inferInstanceAs (Decidable (∀ c ∈ l, c.utf8Size = 1))

/-- All buffer lines are single-byte text. -/
def asciiLines (e : Editor) : Prop := ∀ l ∈ e.lines, asciiLine l

instance (e : Editor) : Decidable (asciiLines e) :=
  inferInstanceAs (Decidable (∀ l ∈ e.lines, asciiLine l))

/-- A Command-mode state whose accumulated command text is `"xyz"`. -/
def sampleUnknownCmd : Editor :=
  { lines := [[]]
    cursor := (0, 0)
    mode := Mode.command
    filePath := "f.txt"
    statusMessage := ['x', 'y', 'z']
    scrollOffset := 0 }

/-- A Command-mode state whose accumulated command text is `"w"`. -/
def sampleWriteCmd : Editor :=
  { lines := [['a']]
    cursor := (0, 0)
    mode := Mode.command
    filePath := "f.txt"
    statusMessage := ['w']
    scrollOffset := 0 }

/-- A state satisfying the viewport invariant whose cursor sits at the start of
the second line with the first line scrolled off-screen. -/
def sampleWrapState : Editor :=
  { lines := [['a'], []]
    cursor := (1, 0)
    mode := Mode.normal
    filePath := "f.txt"
    statusMessage := []
    scrollOffset := 1 }

/-- A valid state whose line ends in a two-byte character, with the cursor at
the end of the line. -/
def sampleMultiByteDel : Editor :=
  { lines := [['é', 'a'], ['b']]
    cursor := (0, 2)
    mode := Mode.insert
    filePath := "f.txt"
    statusMessage := []
    scrollOffset := 0 }

/-- A valid state whose cursor byte offset falls inside a two-byte character. -/
def sampleMultiByteSplit : Editor :=
  { lines := [['é']]
    cursor := (0, 1)
    mode := Mode.insert
    filePath := "f.txt"
    statusMessage := []
    scrollOffset := 0 }

/-- A small all-ASCII state used to instantiate the general theorems. -/
def sampleAscii : Editor :=
  { lines := [['a', 'b'], ['c']]
    cursor := (1, 1)
    mode := Mode.insert
    filePath := "f.txt"
    statusMessage := []
    scrollOffset := 0 }

/-- A three-line buffer with the cursor on the first line. -/
def sampleTall : Editor :=
  { lines := [['a'], ['b'], ['c']]
    cursor := (0, 0)
    mode := Mode.normal
    filePath := "f.txt"
    statusMessage := []
    scrollOffset := 0 }

/-- A two-line buffer with the cursor at the start of the second line. -/
def sampleJoin : Editor :=
  { lines := [['a', 'b'], ['c']]
    cursor := (1, 0)
    mode := Mode.insert
    filePath := "f.txt"
    statusMessage := []
    scrollOffset := 0 }

/-- The editor produced by pressing Enter in Insert mode on `sampleAscii`. -/
def sampleSplitResult : Editor :=
  { lines := [['a', 'b'], ['c'], []]
    cursor := (2, 0)
    mode := Mode.insert
    filePath := "f.txt"
    statusMessage := []
    scrollOffset := 0 }

/-- A single `move_cursor_left` / `move_cursor_right` step. -/
inductive LRMove
  | left
  | right
deriving DecidableEq

/-- Applies one left/right movement step. -/
def applyLR (m : LRMove) (e : Editor) : Editor :=
  match m with
  | LRMove.left => moveCursorLeft e
  | LRMove.right => moveCursorRight e

/-- Applies a finite sequence of left/right movement steps. -/
def applyLRs (ms : List LRMove) (e : Editor) : Editor :=
  ms.foldl (fun e m => applyLR m e) e

/-! ### Helper lemmas -/

theorem byteLen_nil : byteLen [] = 0 := rfl

theorem byteLen_cons (c : Char) (l : Line) :
    byteLen (c :: l) = c.utf8Size + byteLen l := by
  simp [byteLen]

theorem byteLen_of_ascii (l : Line) (h : asciiLine l) : byteLen l = l.length := by
  induction l with
  | nil => rfl
  | cons c cs ih =>
    have hc : c.utf8Size = 1 := h c (List.mem_cons_self c cs)
    have hcs : asciiLine cs := fun d hd => h d (List.mem_cons_of_mem c hd)
    rw [byteLen_cons, hc, ih hcs, List.length_cons]
    omega

theorem getD_mem (L : List Line) (n : Nat) (d : Line) (h : n < L.length) :
    L.getD n d ∈ L := by
  induction L generalizing n with
  | nil => simp at h
  | cons x xs ih =>
    cases n with
    | zero => exact List.mem_cons_self x xs
    | succ m =>
      exact List.mem_cons_of_mem x (ih m (by simpa using h))

theorem insertAt_isSome_of_ascii (l : Line) (n : Nat) (c : Char)
    (ha : asciiLine l) (hn : n ≤ l.length) : (insertAt l n c).isSome := by
  induction l generalizing n with
  | nil =>
    have h0 : n = 0 := by simpa using hn
    subst h0
    rfl
  | cons d ds ih =>
    cases n with
    | zero => rfl
    | succ m =>
      have hd : d.utf8Size = 1 := ha d (List.mem_cons_self d ds)
      have hds : asciiLine ds := fun x hx => ha x (List.mem_cons_of_mem d hx)
      have hm : m ≤ ds.length := by simpa using hn
      have hrec := ih m hds hm
      have heq : insertAt (d :: ds) (m + 1) c = (insertAt ds m c).map (d :: ·) := by
        simp only [insertAt, hd]
        rw [if_pos (by omega), Nat.add_sub_cancel]
      rw [heq]
      cases hcase : insertAt ds m c with
      | none => rw [hcase] at hrec; simp at hrec
      | some l2 => simp

theorem removeAt_isSome_of_ascii (l : Line) (n : Nat)
    (ha : asciiLine l) (hn : n < l.length) : (removeAt l n).isSome := by
  induction l generalizing n with
  | nil => simp at hn
  | cons d ds ih =>
    cases n with
    | zero => rfl
    | succ m =>
      have hd : d.utf8Size = 1 := ha d (List.mem_cons_self d ds)
      have hds : asciiLine ds := fun x hx => ha x (List.mem_cons_of_mem d hx)
      have hm : m < ds.length := by simpa using hn
      have hrec := ih m hds hm
      have heq : removeAt (d :: ds) (m + 1) = (removeAt ds m).map (d :: ·) := by
        simp only [removeAt, hd]
        rw [if_pos (by omega), Nat.add_sub_cancel]
      rw [heq]
      cases hcase : removeAt ds m with
      | none => rw [hcase] at hrec; simp at hrec
      | some l2 => simp

theorem splitAtByte_isSome_of_ascii (l : Line) (n : Nat)
    (ha : asciiLine l) (hn : n ≤ l.length) : (splitAtByte l n).isSome := by
  induction l generalizing n with
  | nil =>
    have h0 : n = 0 := by simpa using hn
    subst h0
    rfl
  | cons d ds ih =>
    cases n with
    | zero => rfl
    | succ m =>
      have hd : d.utf8Size = 1 := ha d (List.mem_cons_self d ds)
      have hds : asciiLine ds := fun x hx => ha x (List.mem_cons_of_mem d hx)
      have hm : m ≤ ds.length := by simpa using hn
      have hrec := ih m hds hm
      have heq : splitAtByte (d :: ds) (m + 1) =
          (splitAtByte ds m).map (fun p => (d :: p.1, p.2)) := by
        simp only [splitAtByte, hd]
        rw [if_pos (by omega), Nat.add_sub_cancel]
      rw [heq]
      cases hcase : splitAtByte ds m with
      | none => rw [hcase] at hrec; simp at hrec
      | some p => simp

theorem splitAtByte_append (l l1 l2 : Line) (n : Nat)
    (h : splitAtByte l n = some (l1, l2)) : l1 ++ l2 = l := by
  induction l generalizing n l1 l2 with
  | nil =>
    cases n with
    | zero => simp [splitAtByte] at h; simp [h.1, h.2]
    | succ m => simp [splitAtByte] at h
  | cons d ds ih =>
    cases n with
    | zero => simp [splitAtByte] at h; simp [h.1, h.2]
    | succ m =>
      simp only [splitAtByte] at h
      by_cases hd : d.utf8Size ≤ m + 1
      · rw [if_pos hd] at h
        cases hcase : splitAtByte ds (m + 1 - d.utf8Size) with
        | none => rw [hcase] at h; simp at h
        | some p =>
          rw [hcase] at h
          simp at h
          obtain ⟨p1, p2⟩ := p
          have hp := ih p1 p2 (m + 1 - d.utf8Size) hcase
          rw [← h.1, ← h.2]
          simp [← hp]
      · rw [if_neg hd] at h; simp at h

theorem moveCursorLeft_valid (e : Editor) (h : validState e) :
    validState (moveCursorLeft e) := by
  obtain ⟨h1, h2⟩ := h
  unfold validState moveCursorLeft
  split_ifs <;> refine ⟨?_, ?_⟩ <;> (try simp_all) <;> omega

theorem moveCursorRight_valid (e : Editor) (h : validState e) :
    validState (moveCursorRight e) := by
  obtain ⟨h1, h2⟩ := h
  unfold validState moveCursorRight
  split_ifs <;> refine ⟨?_, ?_⟩ <;> (try simp_all) <;> omega

theorem eraseIdx_getD_lt (L : List Line) (n i : Nat) (h : i < n) :
    (L.eraseIdx n).getD i [] = L.getD i [] := by
  induction L generalizing n i with
  | nil => simp
  | cons x xs ih =>
    cases n with
    | zero => omega
    | succ m =>
      cases i with
      | zero => rfl
      | succ j =>
        have : j < m := by omega
        simpa using ih m j this

theorem set_eraseIdx_succ (L : List Line) (r : Nat) (v : Line)
    (h : r + 1 < L.length) :
    (L.eraseIdx (r + 1)).set r v = L.take r ++ v :: L.drop (r + 2) := by
  induction L generalizing r with
  | nil => simp at h
  | cons x xs ih =>
    cases r with
    | zero =>
      cases xs with
      | nil => simp at h
      | cons y ys => simp [List.eraseIdx]
    | succ s =>
      have hs : s + 1 < xs.length := by simpa using h
      have := ih s hs
      simp only [List.eraseIdx, List.set, List.take, List.drop]
      rw [this]
      rfl

theorem listInsertAt_length (xs : List Line) (n : Nat) (x : Line)
    (h : n ≤ xs.length) : (listInsertAt xs n x).length = xs.length + 1 := by
  induction xs generalizing n with
  | nil =>
    have h0 : n = 0 := by simpa using h
    subst h0
    rfl
  | cons y ys ih =>
    cases n with
    | zero => rfl
    | succ m =>
      have hm : m ≤ ys.length := by simpa using h
      simp [listInsertAt, ih m hm]

theorem set_getD_self (L : List Line) (r : Nat) (h : r < L.length) :
    L.set r (L.getD r []) = L := by
  induction L generalizing r with
  | nil => simp at h
  | cons x xs ih =>
    cases r with
    | zero => rfl
    | succ s =>
      have hs : s < xs.length := by simpa using h
      show x :: xs.set s (xs.getD s []) = x :: xs
      rw [ih s hs]

theorem insert_join_eq (L : List Line) (r : Nat) (l1 l2 : Line)
    (h : r < L.length) :
    (listInsertAt (L.set r l1) (r + 1) l2).take r ++
      ((listInsertAt (L.set r l1) (r + 1) l2).getD r [] ++
        (listInsertAt (L.set r l1) (r + 1) l2).getD (r + 1) []) ::
      (listInsertAt (L.set r l1) (r + 1) l2).drop (r + 2) =
    L.set r (l1 ++ l2) := by
  induction L generalizing r with
  | nil => simp at h
  | cons x xs ih =>
    cases r with
    | zero => simp [listInsertAt]
    | succ s =>
      have hs : s < xs.length := by simpa using h
      have := ih s hs
      simp only [List.set, listInsertAt, List.take, List.getD, List.drop]
      simpa using this

theorem deleteChar_col0 (e : Editor) (r : Nat) (he : e.cursor = (r + 1, 0))
    (hrl : r + 1 < e.lines.length) :
    deleteChar e =
      some { e with
        lines := e.lines.take r ++
          ((e.lines.getD r []) ++ e.lines.getD (r + 1) []) :: e.lines.drop (r + 2),
        cursor := (r, byteLen (e.lines.getD r [])) } := by
  unfold deleteChar
  rw [he]
  rw [if_neg (by simp), if_pos (by simp), if_pos (by simpa using hrl)]
  simp only [show ((r + 1, 0) : Nat × Nat).1 = r + 1 from rfl,
    Nat.add_sub_cancel]
  rw [eraseIdx_getD_lt e.lines (r + 1) r (by omega),
    set_eraseIdx_succ e.lines r _ hrl]

theorem moveCursorLeft_lines (e : Editor) : (moveCursorLeft e).lines = e.lines := by
  unfold moveCursorLeft
  split_ifs <;> rfl

theorem moveCursorLeft_cursor (e : Editor) :
    (moveCursorLeft e).cursor =
      if 0 < e.cursor.snd then (e.cursor.fst, e.cursor.snd - 1)
      else if 0 < e.cursor.fst then
        (e.cursor.fst - 1, byteLen (e.lines.getD (e.cursor.fst - 1) []))
      else e.cursor := by
  unfold moveCursorLeft
  split_ifs <;> rfl

theorem moveCursorRight_cursor (e : Editor) :
    (moveCursorRight e).cursor =
      if e.cursor.snd < byteLen (e.lines.getD e.cursor.fst []) then
        (e.cursor.fst, e.cursor.snd + 1)
      else if e.cursor.fst < e.lines.length - 1 then (e.cursor.fst + 1, 0)
      else e.cursor := by
  unfold moveCursorRight
  split_ifs <;> rfl

/-! ### Claim theorems -/

/-- Claim C1: executing a non-quitting command (`"w"` or an unknown command)
keeps the session active and reverts the mode to Normal, but — contrary to the
claim — the status message does NOT hold the result/error notice: the code
unconditionally clears `status_message` after the match, so the
`"Invalid command"` / `"File saved"` notices are erased immediately. -/
theorem executeCommand_clears_notice :
    (executeCommand sampleUnknownCmd).2 = false ∧
    (executeCommand sampleUnknownCmd).1.mode = Mode.normal ∧
    (executeCommand sampleUnknownCmd).1.statusMessage = [] ∧
    (executeCommand sampleUnknownCmd).1.statusMessage ≠ "Invalid command".toList ∧
    (executeCommand sampleWriteCmd).2 = false ∧
    (executeCommand sampleWriteCmd).1.mode = Mode.normal ∧
    (executeCommand sampleWriteCmd).1.statusMessage = [] ∧
    (executeCommand sampleWriteCmd).1.statusMessage ≠ "File saved".toList := by
  decide

/-- Claim C2: the buffer produced at startup is NOT always non-empty — an
existing zero-byte file loads as a buffer with zero lines (Rust
`BufRead::lines` yields no records for empty input), violating the never-empty
invariant the claim states. -/
theorem editorNew_empty_file_empty_buffer :
    (editorNew true [] "f.txt").lines.length = 0 := by decide

/-- Claim C3 counterexample: a state satisfying the viewport invariant (and the
cursor validity invariant) on which `move_cursor_left` wraps to the previous
line without adjusting `scroll_offset`, leaving the cursor row above the
viewport. -/
theorem moveCursorLeft_viewport_counterexample :
    (viewportInv 3 sampleWrapState ∧ validState sampleWrapState) ∧
    ¬ viewportInv 3 (moveCursorLeft sampleWrapState) := by decide

/-- Claim C3 (amended): for any terminal height ≥ 3, `move_cursor_up` and
`move_cursor_down` preserve the viewport invariant, and `move_cursor_left` /
`move_cursor_right` preserve it whenever they do not wrap to another line. -/
theorem viewport_inv_preserved (height : Nat) (e : Editor) (hh : 3 ≤ height)
    (hv : viewportInv height e) :
    viewportInv height (moveCursorUp e) ∧
    viewportInv height (moveCursorDown height e) ∧
    (0 < e.cursor.snd → viewportInv height (moveCursorLeft e)) ∧
    (e.cursor.snd < byteLen (e.lines.getD e.cursor.fst []) →
      viewportInv height (moveCursorRight e)) := by
  obtain ⟨hv1, hv2⟩ := hv
  unfold visibleRowCount at hv2
  unfold viewportInv visibleRowCount
  refine ⟨?_, ?_, ?_, ?_⟩
  · unfold moveCursorUp
    split_ifs <;> refine ⟨?_, ?_⟩ <;> (try simp_all) <;> omega
  · unfold moveCursorDown
    split_ifs <;> refine ⟨?_, ?_⟩ <;> (try simp_all) <;> omega
  · intro hc
    unfold moveCursorLeft
    split_ifs <;> refine ⟨?_, ?_⟩ <;> (try simp_all) <;> omega
  · intro hc
    unfold moveCursorRight
    split_ifs <;> refine ⟨?_, ?_⟩ <;> (try simp_all) <;> omega

/-- Claim C3 witness: the amended preservation theorem applied to a concrete
state and height. -/
theorem viewport_inv_preserved_witness :
    viewportInv 3 (moveCursorUp sampleTall) ∧
    viewportInv 3 (moveCursorDown 3 sampleTall) ∧
    (0 < sampleTall.cursor.snd → viewportInv 3 (moveCursorLeft sampleTall)) ∧
    (sampleTall.cursor.snd < byteLen (sampleTall.lines.getD sampleTall.cursor.fst []) →
      viewportInv 3 (moveCursorRight sampleTall)) :=
  viewport_inv_preserved 3 sampleTall (by decide) (by decide)

/-- Claim C4 counterexample: a valid editor state (row in range, column at most
the line's byte length) whose line ends in a two-byte character; `delete_char`
calls `String::remove` at a byte offset inside that character, which panics
(`none`), so insert/delete are not total for arbitrary multi-byte text. -/
theorem deleteChar_multibyte_counterexample :
    validState sampleMultiByteDel ∧ deleteChar sampleMultiByteDel = none := by
  decide

/-- Claim C4 (amended): over valid editor states whose lines contain only
single-byte characters, character insert, delete, and newline insertion are
total (never panic). -/
theorem edit_ops_total_on_ascii (e : Editor) (c : Char) (hv : validState e)
    (ha : asciiLines e) :
    (insertChar e c).isSome ∧ (deleteChar e).isSome ∧ (insertNewline e).isSome := by
  obtain ⟨h1, h2⟩ := hv
  have hal : asciiLine (e.lines.getD e.cursor.fst []) :=
    ha _ (getD_mem e.lines e.cursor.fst [] h1)
  have hbl : byteLen (e.lines.getD e.cursor.fst []) =
      (e.lines.getD e.cursor.fst []).length := byteLen_of_ascii _ hal
  refine ⟨?_, ?_, ?_⟩
  · unfold insertChar
    rw [if_pos h1]
    have hins := insertAt_isSome_of_ascii (e.lines.getD e.cursor.fst [])
      e.cursor.snd c hal (by omega)
    cases hcase : insertAt (e.lines.getD e.cursor.fst []) e.cursor.snd c with
    | none => rw [hcase] at hins; simp at hins
    | some l => simp
  · unfold deleteChar
    by_cases hc : e.cursor.snd > 0
    · rw [if_pos hc, if_pos h1]
      have hrem := removeAt_isSome_of_ascii (e.lines.getD e.cursor.fst [])
        (e.cursor.snd - 1) hal (by omega)
      cases hcase : removeAt (e.lines.getD e.cursor.fst []) (e.cursor.snd - 1) with
      | none => rw [hcase] at hrem; simp at hrem
      | some l => simp
    · rw [if_neg hc]
      by_cases hf : e.cursor.fst > 0
      · rw [if_pos hf, if_pos h1]
        rfl
      · rw [if_neg hf]
        rfl
  · unfold insertNewline
    rw [if_pos h1]
    have hsp := splitAtByte_isSome_of_ascii (e.lines.getD e.cursor.fst [])
      e.cursor.snd hal (by omega)
    cases hcase : splitAtByte (e.lines.getD e.cursor.fst []) e.cursor.snd with
    | none => rw [hcase] at hsp; simp at hsp
    | some p => simp

/-- Claim C4 witness: the amended totality theorem applied to a concrete ASCII
state. -/
theorem edit_ops_total_on_ascii_witness :
    (insertChar sampleAscii 'z').isSome ∧ (deleteChar sampleAscii).isSome ∧
      (insertNewline sampleAscii).isSome :=
  edit_ops_total_on_ascii sampleAscii 'z' (by decide) (by decide)

/-- Claim C5: for a state with `row < len(Buffer) - 1` and terminal height ≥ 3,
`move_cursor_down` increments the row, clamps the column to the new line's
length, and sets `scroll_offset` to `row - visible_row_count + 1` exactly when
the new row is at least `scroll_offset + visible_row_count`, leaving it
unchanged otherwise (`visible_row_count = height - 2`, the rows the render loop
draws per frame). -/
theorem moveCursorDown_spec (height : Nat) (e : Editor) (hh : 3 ≤ height)
    (hr : e.cursor.fst < e.lines.length - 1) :
    moveCursorDown height e =
      { e with
        cursor := (e.cursor.fst + 1,
          min e.cursor.snd (byteLen (e.lines.getD (e.cursor.fst + 1) []))),
        scrollOffset :=
          if e.scrollOffset + visibleRowCount height ≤ e.cursor.fst + 1 then
            e.cursor.fst + 1 - visibleRowCount height + 1
          else e.scrollOffset } := by
  unfold moveCursorDown visibleRowCount
  rw [if_pos hr]
  rcases e with ⟨L, ⟨r, c⟩, m, p, st, off⟩
  simp only [Editor.mk.injEq, true_and, and_true]
  split_ifs <;> omega

/-- Claim C5 witness: the `move_cursor_down` characterization applied to a
concrete state and height. -/
theorem moveCursorDown_spec_witness :
    moveCursorDown 3 sampleTall =
      { sampleTall with
        cursor := (sampleTall.cursor.fst + 1,
          min sampleTall.cursor.snd
            (byteLen (sampleTall.lines.getD (sampleTall.cursor.fst + 1) []))),
        scrollOffset :=
          if sampleTall.scrollOffset + visibleRowCount 3 ≤ sampleTall.cursor.fst + 1 then
            sampleTall.cursor.fst + 1 - visibleRowCount 3 + 1
          else sampleTall.scrollOffset } :=
  moveCursorDown_spec 3 sampleTall (by decide) (by decide)

/-- Claim C6: saving the buffer `["a", "bb", ""]` writes each line with a
trailing newline (including the final empty one), and loading the written
content back yields exactly `["a", "bb", ""]`. -/
theorem save_load_roundtrip :
    saveContent [['a'], ['b', 'b'], []] = "a\nbb\n\n".toList ∧
    (editorNew true (saveContent [['a'], ['b', 'b'], []]) "f.txt").lines =
      [['a'], ['b', 'b'], []] := by decide

/-- Claim C7: starting from any valid cursor position, any finite sequence of
`move_cursor_left` / `move_cursor_right` steps keeps the cursor within
`0 ≤ row < len(Buffer)` and `0 ≤ column ≤ len(line(row))`. -/
theorem lr_moves_preserve_valid (ms : List LRMove) (e : Editor)
    (h : validState e) : validState (applyLRs ms e) := by
  induction ms generalizing e with
  | nil => exact h
  | cons m ms ih =>
    cases m with
    | left => exact ih (moveCursorLeft e) (moveCursorLeft_valid e h)
    | right => exact ih (moveCursorRight e) (moveCursorRight_valid e h)

/-- Claim C7 witness: the sequence invariant applied to a concrete state and
move sequence. -/
theorem lr_moves_preserve_valid_witness :
    validState (applyLRs [LRMove.left, LRMove.right, LRMove.left] sampleAscii) :=
  lr_moves_preserve_valid [LRMove.left, LRMove.right, LRMove.left] sampleAscii
    (by decide)

/-- Claim C8: from any valid cursor position other than `(0, 0)`,
`move_cursor_left` followed by `move_cursor_right` returns the cursor to its
original `(row, column)` — including at line-wrap boundaries
(`column = 0, row > 0`), where wrap and unwrap are symmetric. -/
theorem left_right_roundtrip (e : Editor) (h : validState e)
    (hb : ¬ (e.cursor.fst = 0 ∧ e.cursor.snd = 0)) :
    (moveCursorRight (moveCursorLeft e)).cursor = e.cursor := by
  obtain ⟨h1, h2⟩ := h
  rw [moveCursorRight_cursor, moveCursorLeft_lines, moveCursorLeft_cursor]
  split_ifs <;> (try simp_all [Prod.ext_iff]) <;> omega

/-- Claim C8 witness: the left-right inverse property applied at a concrete
line-wrap boundary position. -/
theorem left_right_roundtrip_witness :
    (moveCursorRight (moveCursorLeft sampleJoin)).cursor = sampleJoin.cursor :=
  left_right_roundtrip sampleJoin (by decide) (by decide)

/-- Claim C9 counterexample: a valid state (column ≤ byte length of the line)
whose column falls inside a two-byte character; there Insert-mode Enter
(`insert_newline`) panics on the string slice (`none`), so split-then-backspace
does not restore the buffer for every column `c ≤ len(line(row))`. -/
theorem split_join_multibyte_counterexample :
    validState sampleMultiByteSplit ∧
    (insertNewline sampleMultiByteSplit).bind deleteChar = none := by decide

/-- Claim C9 (amended): whenever splitting the current line at the cursor
column succeeds (the column is on a character boundary — in particular for
every column of a single-byte line), pressing Backspace at the start of the
newly created line restores the buffer's line sequence verbatim. -/
theorem split_join_roundtrip (e e1 : Editor)
    (hr : e.cursor.fst < e.lines.length)
    (h1 : insertNewline e = some e1) :
    ∃ e2, deleteChar e1 = some e2 ∧ e2.lines = e.lines := by
  unfold insertNewline at h1
  rw [if_pos hr] at h1
  cases hs : splitAtByte (e.lines.getD e.cursor.fst []) e.cursor.snd with
  | none => rw [hs] at h1; simp at h1
  | some p =>
    obtain ⟨l1, l2⟩ := p
    rw [hs] at h1
    simp only [Option.some.injEq] at h1
    subst h1
    have hlen1 : e.cursor.fst + 1 ≤ (e.lines.set e.cursor.fst l1).length := by
      simp only [List.length_set]
      omega
    have hlen2 : e.cursor.fst + 1 <
        (listInsertAt (e.lines.set e.cursor.fst l1) (e.cursor.fst + 1) l2).length := by
      rw [listInsertAt_length _ _ _ hlen1]
      simp only [List.length_set]
      omega
    have hdel := deleteChar_col0
      { e with
        lines := listInsertAt (e.lines.set e.cursor.fst l1) (e.cursor.fst + 1) l2
        cursor := (e.cursor.fst + 1, 0) }
      e.cursor.fst rfl (by simpa using hlen2)
    refine ⟨_, hdel, ?_⟩
    simp only
    rw [insert_join_eq e.lines e.cursor.fst l1 l2 hr,
      splitAtByte_append _ l1 l2 _ hs, set_getD_self _ _ hr]

/-- Claim C9 witness: the split-then-join round trip applied to a concrete
state whose cursor column is a character boundary. -/
theorem split_join_roundtrip_witness :
    ∃ e2, deleteChar sampleSplitResult = some e2 ∧
      e2.lines = sampleAscii.lines :=
  split_join_roundtrip sampleAscii sampleSplitResult (by decide) (by decide)

/-- Claim C10: with the cursor at `(row, 0)` and `row > 0`, `delete_char`
joins the current line onto the end of the previous line, removes the current
line, leaves every other line unchanged, and places the cursor at
`(row - 1, L)` where `L` is the previous line's byte length before the join. -/
theorem deleteChar_join_spec (e : Editor) (r : Nat) (he : e.cursor = (r + 1, 0))
    (hrl : r + 1 < e.lines.length) :
    deleteChar e =
      some { e with
        lines := e.lines.take r ++
          ((e.lines.getD r []) ++ e.lines.getD (r + 1) []) :: e.lines.drop (r + 2),
        cursor := (r, byteLen (e.lines.getD r [])) } :=
  deleteChar_col0 e r he hrl

/-- Claim C10 witness: the join characterization applied to a concrete
two-line buffer. -/
theorem deleteChar_join_spec_witness :
    deleteChar sampleJoin =
      some { sampleJoin with
        lines := sampleJoin.lines.take 0 ++
          ((sampleJoin.lines.getD 0 []) ++ sampleJoin.lines.getD 1 []) ::
            sampleJoin.lines.drop 2,
        cursor := (0, byteLen (sampleJoin.lines.getD 0 [])) } :=
  deleteChar_join_spec sampleJoin 0 (by decide) (by decide)

end Rim
